import Mathlib

/-!
Verification of the simple-bank core (ledger validation, balance mutation,
in-memory account store) against its natural-language specification.

The Rust sources are embedded shallowly:

* `rust_decimal::Decimal` is modelled at two levels.  For the claims whose
  verdicts are about control flow and error logic and do not depend on how an
  addition rounds (C1-C5, C7-C10) it is modelled as `ℚ`.  Decimal addition,
  however, is not always exact: when the two operands' scales cannot be
  aligned within the 96-bit mantissa, the smaller-scale operand is rounded
  away (`1e-28 + 1e28` loses the `1e-28` entirely).  The claim about exact
  round-tripping of amounts (C6) is therefore settled against the faithful
  mantissa/scale model `Dec` below, whose addition performs the library's
  scale alignment and rounding.  The sign test `is_sign_negative` on a
  computed sum is `< 0` in the rational model (a cancelled sum is a positive
  zero) and the stored sign flag in the faithful model.
* Rust's `str::parse::<f64>` is modelled by an exact IEEE-754 binary64
  round-to-nearest-even on the rational value denoted by the digit string,
  together with the special spellings `inf` / `infinity` / `nan` that the
  standard library accepts (case-insensitive, optional sign).
* `Decimal::from_f64` (external `rust_decimal` crate, sources not part of this
  repository) is modelled from the library's semantics: `none` for NaN and the
  infinities, `none` when the value overflows the 96-bit mantissa, and for
  finite in-range doubles the exact dyadic value is brought to scale at most
  28 and then to the double's guaranteed precision by repeated
  divide-by-ten-rounding steps, so that doubles smaller than the smallest
  positive decimal collapse to zero.  The claims settled below depend only on
  these observable facts, never on the exact low-order digits produced.
* Stateful methods are modelled by explicit state passing: a Rust method
  `&mut self → Result<T, E>` becomes a Lean function returning
  `State × Except E T`.  A Rust panic (the `unwrap` in `Ledger::new`) is
  modelled as `none` in an outer `Option`.
-/

deriving instance DecidableEq for Except

set_option allowUnsafeReducibility true in
attribute [semireducible] Rat.mul Rat.inv Rat.add Rat.sub

namespace SimpleBank

/-- Base-two logarithm (floor) of a natural number, by structural recursion on
a fuel argument so that it evaluates inside the kernel. -/
def natLog2Fuel : ℕ → ℕ → ℕ
  | 0, _ => 0
  | fuel + 1, n => if n ≤ 1 then 0 else natLog2Fuel fuel (n / 2) + 1

/-- Base-two logarithm (floor) of a natural number. -/
def natLog2 (n : ℕ) : ℕ := natLog2Fuel n n

/-- Exact decimal amounts (`rust_decimal::Decimal`), modelled as rationals. -/
abbrev Decimal := ℚ

/-- Sign test of `rust_decimal` on a computed sum (`is_sign_negative`):
an exact sum is negative exactly when its rational value is below zero. -/
def Decimal.isSignNegative (q : Decimal) : Bool := q < 0

/-! ## Binary64 model for Rust's f64 -/

/-- Values of Rust's `f64` relevant to this program: a finite double holds its
exact (dyadic) rational value. -/
inductive F64 where
  | finite (q : ℚ)
  | inf
  | neginf
  | nan
deriving DecidableEq

/-- Integer power of two as a rational, through the machine-level natural
power. -/
def pow2 (z : ℤ) : ℚ :=
  if 0 ≤ z then ((2 ^ z.toNat : ℕ) : ℚ) else 1 / ((2 ^ (-z).toNat : ℕ) : ℚ)

/-- Integer power of ten as a rational, through the machine-level natural
power. -/
def pow10 (z : ℤ) : ℚ :=
  if 0 ≤ z then ((10 ^ z.toNat : ℕ) : ℚ) else 1 / ((10 ^ (-z).toNat : ℕ) : ℚ)

/-- Floor of the base-two logarithm of a positive rational, computed from the
numerator/denominator binary logarithms and corrected by at most one. -/
def floorLog2 (q : ℚ) : ℤ :=
  let g : ℤ := (natLog2 q.num.natAbs : ℤ) - (natLog2 q.den : ℤ)
  if pow2 (g + 1) ≤ q then g + 1
  else if pow2 g ≤ q then g
  else g - 1

/-- Round a rational to the nearest integer, ties to even. -/
def roundHalfEven (q : ℚ) : ℤ :=
  let f : ℤ := ⌊q⌋
  let r : ℚ := q - (f : ℚ)
  if r < 1 / 2 then f
  else if 1 / 2 < r then f + 1
  else if f % 2 = 0 then f else f + 1

/-- IEEE-754 binary64 round-to-nearest-even of an exact rational: the semantic
content of Rust's `str::parse::<f64>` on a plain decimal literal.  The
significand grid has step `2 ^ (e - 52)` in the binade of the value, clamped at
the subnormal step `2 ^ (-1074)`; results at or beyond `2 ^ 1024` become the
infinities. -/
def roundF64 (q : ℚ) : F64 :=
  if q = 0 then F64.finite 0
  else
    let a : ℚ := if q < 0 then -q else q
    let e : ℤ := max (floorLog2 a) (-1022)
    let step : ℚ := pow2 (e - 52)
    let n : ℤ := roundHalfEven (a / step)
    let r : ℚ := (n : ℚ) * step
    if pow2 1024 ≤ r then (if q < 0 then F64.neginf else F64.inf)
    else F64.finite (if q < 0 then -r else r)

/-! ## Rust f64 string parsing -/

/-- Numeric value of a list of decimal digit characters. -/
def natOfDigits (ds : List Char) : ℕ :=
  ds.foldl (fun a c => 10 * a + (c.toNat - 48)) 0

/-- Split an optional leading sign; returns whether the sign was negative. -/
def splitSign : List Char → Bool × List Char
  | '-' :: rest => (true, rest)
  | '+' :: rest => (false, rest)
  | cs => (false, cs)

/-- Exact rational value of integer digits, fractional digits and a decimal
exponent. -/
def digitsValue (d1 d2 : List Char) (ex : ℤ) : ℚ :=
  ((natOfDigits (d1 ++ d2) : ℚ) / ((10 ^ d2.length : ℕ) : ℚ)) * pow10 ex

/-- Parse the optional exponent part `(('e'|'E') Sign? Digit+)?` of Rust's
float grammar; the whole remaining input must be consumed. -/
def parseExpPart : List Char → Option ℤ
  | [] => some 0
  | c :: rest =>
    if c = 'e' ∨ c = 'E' then
      let sc := splitSign rest
      let p := sc.2.span Char.isDigit
      if p.1.isEmpty ∨ ¬p.2.isEmpty then none
      else some (if sc.1 then -(natOfDigits p.1 : ℤ) else (natOfDigits p.1 : ℤ))
    else none

/-- Parse the `Number` production of Rust's float grammar
(`Digit+ '.'? Digit* Exp?` or `'.' Digit+ Exp?`), returning the exact rational
value it denotes.  The whole input must be consumed. -/
def parseNumber (cs : List Char) : Option ℚ :=
  let p1 := cs.span Char.isDigit
  match p1.2 with
  | '.' :: r2 =>
    let p2 := r2.span Char.isDigit
    if p1.1.isEmpty ∧ p2.1.isEmpty then none
    else
      match parseExpPart p2.2 with
      | some ex => some (digitsValue p1.1 p2.1 ex)
      | none => none
  | _ =>
    if p1.1.isEmpty then none
    else
      match parseExpPart p1.2 with
      | some ex => some (digitsValue p1.1 [] ex)
      | none => none

/-- Rust's `str::parse::<f64>`: optional sign, then `inf` / `infinity` / `nan`
(case-insensitive) or a decimal number, rounded to the nearest binary64. -/
def parseF64 (s : String) : Option F64 :=
  match s.toList with
  | [] => none
  | cs =>
    let sc := splitSign cs
    let low := sc.2.map Char.toLower
    if low = ['i', 'n', 'f'] ∨ low = ['i', 'n', 'f', 'i', 'n', 'i', 't', 'y'] then
      some (if sc.1 then F64.neginf else F64.inf)
    else if low = ['n', 'a', 'n'] then some F64.nan
    else
      match parseNumber sc.2 with
      | some q => some (roundF64 (if sc.1 then -q else q))
      | none => none

/-- Equality test against `0.0` on an f64 (`amount == 0.0`): true exactly for
a finite zero (NaN and the infinities compare unequal to zero). -/
def F64.isZero : F64 → Bool
  | F64.finite q => q = 0
  | _ => false

/-- Negation of an f64 (`amount * -1.0`), exact on finite values. -/
def F64.neg : F64 → F64
  | F64.finite q => F64.finite (-q)
  | F64.inf => F64.neginf
  | F64.neginf => F64.inf
  | F64.nan => F64.nan

/-! ## Model of rust_decimal's from_f64 -/

/-- One divide-by-ten step with round-half-up on the dropped remainder, as in
the scale-reduction loops of the decimal library. -/
def div10Round (m : ℕ) : ℕ := m / 10 + (if 5 ≤ m % 10 then 1 else 0)

/-- Modelled from the rust_decimal library: reduce a mantissa/scale pair until
the scale is at most 28, one rounded divide-by-ten per step; a mantissa that
reaches zero gives the zero decimal (this is how doubles below the smallest
positive decimal underflow to zero).  The first argument is fuel, instantiated
with the starting scale. -/
def reduceScaleAux : ℕ → ℕ × ℕ → ℕ × ℕ
  | 0, p => p
  | fuel + 1, (m, s) =>
    if s ≤ 28 then (m, s)
    else
      let m2 := div10Round m
      if m2 = 0 then (0, 0) else reduceScaleAux fuel (m2, s - 1)

/-- Modelled from the rust_decimal library: drop decimal places beyond the
precision guaranteed by a binary64 (mantissa below `2 ^ 52`), one rounded
divide-by-ten per step. -/
def reducePrecAux : ℕ → ℕ × ℕ → ℕ × ℕ
  | 0, p => p
  | fuel + 1, (m, s) =>
    if s = 0 ∨ m < 2 ^ 52 then (m, s)
    else reducePrecAux fuel (div10Round m, s - 1)

/-- Modelled from the rust_decimal library: remove trailing zero digits from
the fractional part (value-preserving normalisation). -/
def stripZerosAux : ℕ → ℕ × ℕ → ℕ × ℕ
  | 0, p => p
  | fuel + 1, (m, s) =>
    if s = 0 ∨ ¬m % 10 = 0 then (m, s)
    else stripZerosAux fuel (m / 10, s - 1)

/-- Largest mantissa representable by the decimal type. -/
def maxMantissa : ℕ := 2 ^ 96 - 1

/-- Modelled from the rust_decimal library (an external dependency, sources
not part of this repository): `Decimal::from_f64`.  NaN and the infinities
give `none`; a finite double's exact dyadic value `±n / 2 ^ t` is written as
the exact decimal `±(n * 5 ^ t) / 10 ^ t` and then brought into range by the
scale and precision reduction loops; a mantissa still above 96 bits means the
value overflows the decimal type and gives `none`. -/
def fromF64 : F64 → Option Decimal
  | F64.nan => none
  | F64.inf => none
  | F64.neginf => none
  | F64.finite q =>
    if q = 0 then some 0
    else
      let a : ℚ := if q < 0 then -q else q
      let t : ℕ := natLog2 a.den
      let m0 : ℕ := a.num.natAbs * 5 ^ t
      let p1 := reduceScaleAux t (m0, t)
      let p2 := reducePrecAux p1.2 p1
      let p3 := stripZerosAux p2.2 p2
      if maxMantissa < p3.1 then none
      else
        let v : ℚ := (p3.1 : ℚ) / ((10 ^ p3.2 : ℕ) : ℚ)
        some (if q < 0 then -v else v)

/-! ## src/ledger.rs -/

/-- Error type `LedgerError` of `src/ledger.rs`. -/
inductive LedgerError where
  | emptyAmount
  | parseAmount
  | invalidAmount (msg : String)
  | duplicateLedger
deriving DecidableEq

/-- Action type of `src/ledger.rs`: a kind together with the untrusted raw
amount string. -/
inductive Action where
  | withdrawal (raw : String)
  | deposit (raw : String)
deriving DecidableEq

/-- Raw amount string carried by an action (the shared binding of the
`Withdrawal(a) | Deposit(a)` match arms). -/
def Action.raw : Action → String
  | Action.withdrawal a => a
  | Action.deposit a => a

/-- Display form of an action (`impl fmt::Display for Action`). -/
def Action.display : Action → String
  | Action.withdrawal _ => "Withdrawal"
  | Action.deposit _ => "Deposit"

/-- Struct `Ledger` of `src/ledger.rs`: id token, display form of the action,
and the signed stored amount. -/
structure Ledger where
  id : String
  action : String
  amount : Decimal
deriving DecidableEq

/-- Test for a leading minus sign (`a.starts_with("-")`). -/
def startsWithMinus (s : String) : Bool :=
  match s.toList with
  | '-' :: _ => true
  | _ => false

/-- Constructor `Ledger::new` of `src/ledger.rs`.  The randomly generated id
token is passed explicitly.  The outer `Option` models the possible panic:
`Decimal::from_f64(amount).unwrap()` panics (`none`) when the conversion
returns no value.  Validation order as in the source: empty string, leading
minus sign, f64 parse, zero test on the parsed double, then sign application
and conversion to the decimal type. -/
def Ledger.new (id : String) (action : Action) : Option (Except LedgerError Ledger) :=
  if action.raw = "" then some (Except.error LedgerError.emptyAmount)
  else if startsWithMinus action.raw then
    some (Except.error (LedgerError.invalidAmount "amount can\x27t be negative"))
  else
    match parseF64 action.raw with
    | none => some (Except.error LedgerError.parseAmount)
    | some f =>
      if f.isZero then some (Except.error (LedgerError.invalidAmount "amount can\x27t zero"))
      else
        let f2 := match action with
          | Action.deposit _ => f
          | Action.withdrawal _ => f.neg
        match fromF64 f2 with
        | none => none
        | some d => some (Except.ok { id := id, action := action.display, amount := d })

/-- Struct `Ledgers` of `src/ledger.rs`: the id index (a hash set, modelled as
a list used only through membership) and the ordered collection. -/
structure Ledgers where
  index : List String
  collection : List Ledger
deriving DecidableEq

/-- Constructor `Ledgers::new`. -/
def Ledgers.new : Ledgers := { index := [], collection := [] }

/-- Method `Ledgers::add`: reject an already indexed id with
`DuplicateLedger`, otherwise index the id and append the entry. -/
def Ledgers.add (ls : Ledgers) (l : Ledger) : Ledgers × Except LedgerError Unit :=
  if l.id ∈ ls.index then (ls, Except.error LedgerError.duplicateLedger)
  else ({ index := l.id :: ls.index, collection := ls.collection ++ [l] }, Except.ok ())

/-- Method `Ledgers::len`. -/
def Ledgers.len (ls : Ledgers) : ℕ := ls.collection.length

/-- Fold of the entries' amounts over `Decimal::default()` in collection
order (the loop body of `Ledgers::sum`). -/
def sumAmounts (coll : List Ledger) : Decimal :=
  coll.foldl (fun total l => total + l.amount) 0

/-- Method `Ledgers::sum`: fold the entries' amounts over `Decimal::default()`
in collection order. -/
def Ledgers.sum (ls : Ledgers) : Decimal :=
  sumAmounts ls.collection

/-! ## src/balance.rs -/

/-- Error type `BalanceError` of `src/balance.rs`. -/
inductive BalanceError where
  | invalidCurrency
  | balanceNotEnough
deriving DecidableEq

/-- Struct `Balance` of `src/balance.rs`. -/
structure Balance where
  currency : String
  ledgers : Ledgers
deriving DecidableEq

/-- Upper-casing of the currency code (`to_uppercase`), code point by code
point (the source's Unicode uppercasing agrees with this on the ASCII currency
codes considered here). -/
def toUpperStr (s : String) : String := String.mk (s.data.map Char.toUpper)

/-- Constructor `Balance::new`: reject an empty currency, otherwise store the
upper-cased currency with an empty entry set. -/
def Balance.new (currency : String) : Except BalanceError Balance :=
  if currency = "" then Except.error BalanceError.invalidCurrency
  else Except.ok { currency := toUpperStr currency, ledgers := Ledgers.new }

/-- Method `Balance::mutate` of `src/balance.rs`: reject when the current sum
plus the entry's amount is negative; otherwise call `Ledgers::add` with its
result discarded (`let _ = self.ledgers.add(ledger)`) and return the recomputed
total. -/
def Balance.mutate (b : Balance) (l : Ledger) : Balance × Except BalanceError Decimal :=
  let amount := l.amount
  let currentBalance := b.ledgers.sum
  if Decimal.isSignNegative (currentBalance + amount) then
    (b, Except.error BalanceError.balanceNotEnough)
  else
    let b2 : Balance := { b with ledgers := (b.ledgers.add l).1 }
    (b2, Except.ok b2.ledgers.sum)

/-- Method `Balance::amount`: zero for an empty entry set, otherwise the sum. -/
def Balance.amount (b : Balance) : Decimal :=
  if b.ledgers.len = 0 then 0 else b.ledgers.sum

/-! ## src/storage.rs -/

/-- Error type `StorageError` of `src/storage.rs`. -/
inductive StorageError where
  | accountAlreadyExists
  | accountNotExists
deriving DecidableEq

/-- Struct `InMemory` of `src/storage.rs`: the account map, modelled as an
association list observed only through `HashMap`'s lookup semantics (the lock
and the reference counting around it manage sharing, not the map's contents).
-/
structure InMemory where
  balances : List (String × Balance)
deriving DecidableEq

/-- Constructor `InMemory::new`. -/
def InMemory.new : InMemory := { balances := [] }

/-- Lookup of `HashMap::get` on the association-list model. -/
def lookupBalance : List (String × Balance) → String → Option Balance
  | [], _ => none
  | (k, v) :: rest, key => if k = key then some v else lookupBalance rest key

/-- Binding replacement of `HashMap::insert` on a present key. -/
def replaceBalance : List (String × Balance) → String → Balance → List (String × Balance)
  | [], _, _ => []
  | (k, v) :: rest, key, b =>
    if k = key then (key, b) :: rest else (k, v) :: replaceBalance rest key b

/-- Test of `HashMap::contains_key`. -/
def InMemory.containsKey (st : InMemory) (accountId : String) : Bool :=
  (lookupBalance st.balances accountId).isSome

/-- Method `InMemory::get`: the stored balance for the key, if present (the
clone returned by the source is value equality here). -/
def InMemory.get (st : InMemory) (accountId : String) : Option Balance :=
  lookupBalance st.balances accountId

/-- Method `InMemory::insert`: reject a present key with
`AccountAlreadyExists`, otherwise store the balance under the key. -/
def InMemory.insert (st : InMemory) (accountId : String) (balance : Balance) :
    InMemory × Except StorageError Unit :=
  if st.containsKey accountId then (st, Except.error StorageError.accountAlreadyExists)
  else ({ balances := (accountId, balance) :: st.balances }, Except.ok ())

/-- Method `InMemory::update`: reject an absent key with `AccountNotExists`,
otherwise replace the stored balance wholesale. -/
def InMemory.update (st : InMemory) (accountId : String) (balance : Balance) :
    InMemory × Except StorageError Unit :=
  if ¬st.containsKey accountId then (st, Except.error StorageError.accountNotExists)
  else ({ balances := replaceBalance st.balances accountId balance }, Except.ok ())

/-! ## Derived definitions used by the claims -/

/-- Sequence of `Balance::mutate` calls, keeping the balance state whether
each call succeeds or fails (as a caller that continues after errors does). -/
def applyMutations (b : Balance) (ls : List Ledger) : Balance :=
  ls.foldl (fun bb l => (bb.mutate l).1) b

/-- All id tokens used by a list of deposit/withdrawal rounds. -/
def pairIds : List (String × String) → List String
  | [] => []
  | (i, j) :: rest => i :: j :: pairIds rest

/-- Exact rational value denoted by a raw amount string under the decimal
number grammar, with no rounding: the reference meaning of a textual amount,
against which exact storage is judged. -/
def exactAmount (s : String) : Option ℚ :=
  match s.toList with
  | [] => none
  | cs =>
    let sc := splitSign cs
    match parseNumber sc.2 with
    | some q => some (if sc.1 then -q else q)
    | none => none

/-- Stored amount of the entry built by `Ledger::new`, when construction
succeeds. -/
def newLedgerAmount (id : String) (a : Action) : Option Decimal :=
  match Ledger.new id a with
  | some (Except.ok l) => some l.amount
  | _ => none

/-! ## Faithful decimal model (mantissa and scale)

The rational model above is exact; the library is not.  The definitions below
re-embed the decimal type and the balance operations at the representation
level — sign flag, 96-bit mantissa, scale — including the scale alignment and
rounding the library's addition performs.  Claim C6 (exact round-tripping) is
settled against this model. -/

/-- Modelled from the rust_decimal library: a decimal value as the library
represents it — sign flag, mantissa (below `2 ^ 96` for library-built
values), and scale (at most 28 for library-built values). -/
structure Dec where
  neg : Bool
  mant : ℕ
  scale : ℕ
deriving DecidableEq

/-- Rational value denoted by a stored decimal; the library's `==` on
decimals is equality of these values. -/
def Dec.toRat (d : Dec) : ℚ :=
  (if d.neg then -(d.mant : ℚ) else (d.mant : ℚ)) / ((10 ^ d.scale : ℕ) : ℚ)

/-- Signed mantissa of a stored decimal. -/
def Dec.sval (d : Dec) : ℤ :=
  if d.neg then -(d.mant : ℤ) else (d.mant : ℤ)

/-- Zero decimal (`Decimal::default()`). -/
def Dec.zero : Dec := { neg := false, mant := 0, scale := 0 }

/-- Decimal with the given signed mantissa and scale. -/
def Dec.ofSigned (r : ℤ) (s : ℕ) : Dec :=
  { neg := decide (r < 0), mant := r.natAbs, scale := s }

/-- Modelled from the rust_decimal library: scale alignment before addition.
The operand with the smaller scale is scaled up by tens while its mantissa
stays within 96 bits; once it cannot be, the operand with the larger scale is
scaled down by tens with rounding, losing its low digits — the precision loss
an exact rational model cannot show.  The fuel bounds the scale distance. -/
def alignPair : ℕ → ℕ × ℕ → ℕ × ℕ → (ℕ × ℕ) × (ℕ × ℕ)
  | 0, a, b => (a, b)
  | fuel + 1, (ma, sa), (mb, sb) =>
    if sa = sb then ((ma, sa), (mb, sb))
    else if sa < sb then
      (if ma * 10 ≤ maxMantissa then alignPair fuel (ma * 10, sa + 1) (mb, sb)
       else alignPair fuel (ma, sa) (div10Round mb, sb - 1))
    else
      (if mb * 10 ≤ maxMantissa then alignPair fuel (ma, sa) (mb * 10, sb + 1)
       else alignPair fuel (div10Round ma, sa - 1) (mb, sb))

/-- Mantissa with a sign flag applied, as a signed integer. -/
def signedMant (n : Bool) (m : ℕ) : ℤ := if n then -(m : ℤ) else (m : ℤ)

/-- Signed addition of two aligned mantissa/scale pairs: add the signed
mantissas and reduce once more when the result mantissa leaves 96 bits (at
scale zero the source library panics on such an overflow; no value considered
in this file comes near that branch). -/
def addAligned (na nb : Bool) (p : (ℕ × ℕ) × (ℕ × ℕ)) : Dec :=
  let r : ℤ := signedMant na p.1.1 + signedMant nb p.2.1
  let s := p.1.2
  if maxMantissa < r.natAbs then
    (if 0 < s then { neg := decide (r < 0), mant := div10Round r.natAbs, scale := s - 1 }
     else { neg := decide (r < 0), mant := r.natAbs, scale := 0 })
  else { neg := decide (r < 0), mant := r.natAbs, scale := s }

/-- Modelled from the rust_decimal library: addition — align the scales, then
add the signed mantissas. -/
def Dec.add (a b : Dec) : Dec :=
  addAligned a.neg b.neg (alignPair 56 (a.mant, a.scale) (b.mant, b.scale))

/-- Sign flag of a stored decimal (`is_sign_negative`). -/
def Dec.isSignNegative (d : Dec) : Bool := d.neg

/-- Modelled from the rust_decimal library: `Decimal::from_f64` in
mantissa/scale form — the same computation as `fromF64`, keeping the stored
representation (`fromF64_eq_toRat` below relates the two). -/
def fromF64Dec : F64 → Option Dec
  | F64.nan => none
  | F64.inf => none
  | F64.neginf => none
  | F64.finite q =>
    if q = 0 then some Dec.zero
    else
      let a : ℚ := if q < 0 then -q else q
      let t : ℕ := natLog2 a.den
      let m0 : ℕ := a.num.natAbs * 5 ^ t
      let p1 := reduceScaleAux t (m0, t)
      let p2 := reducePrecAux p1.2 p1
      let p3 := stripZerosAux p2.2 p2
      if maxMantissa < p3.1 then none
      else some { neg := decide (q < 0), mant := p3.1, scale := p3.2 }

/-- Entry of `src/ledger.rs` with its amount in the faithful decimal form. -/
structure DLedger where
  id : String
  action : String
  amount : Dec
deriving DecidableEq

/-- Constructor `Ledger::new` over the faithful decimal form: the same source
path as `Ledger.new`, with the conversion kept in mantissa/scale form. -/
def DLedger.new (id : String) (action : Action) : Option (Except LedgerError DLedger) :=
  if action.raw = "" then some (Except.error LedgerError.emptyAmount)
  else if startsWithMinus action.raw then
    some (Except.error (LedgerError.invalidAmount "amount can\x27t be negative"))
  else
    match parseF64 action.raw with
    | none => some (Except.error LedgerError.parseAmount)
    | some f =>
      if f.isZero then some (Except.error (LedgerError.invalidAmount "amount can\x27t zero"))
      else
        let f2 := match action with
          | Action.deposit _ => f
          | Action.withdrawal _ => f.neg
        match fromF64Dec f2 with
        | none => none
        | some d => some (Except.ok { id := id, action := action.display, amount := d })

/-- Entry set of `src/ledger.rs` over the faithful decimal form. -/
structure DLedgers where
  index : List String
  collection : List DLedger
deriving DecidableEq

/-- Method `Ledgers::add` over the faithful decimal form. -/
def DLedgers.add (ls : DLedgers) (l : DLedger) : DLedgers × Except LedgerError Unit :=
  if l.id ∈ ls.index then (ls, Except.error LedgerError.duplicateLedger)
  else ({ index := l.id :: ls.index, collection := ls.collection ++ [l] }, Except.ok ())

/-- Method `Ledgers::len` over the faithful decimal form. -/
def DLedgers.len (ls : DLedgers) : ℕ := ls.collection.length

/-- Loop body of `Ledgers::sum` over the faithful decimal form: fold the
library's addition over `Decimal::default()` in collection order. -/
def dSumAmounts (coll : List DLedger) : Dec :=
  coll.foldl (fun total l => Dec.add total l.amount) Dec.zero

/-- Method `Ledgers::sum` over the faithful decimal form. -/
def DLedgers.sum (ls : DLedgers) : Dec := dSumAmounts ls.collection

/-- Balance of `src/balance.rs` over the faithful decimal form. -/
structure DBalance where
  currency : String
  ledgers : DLedgers
deriving DecidableEq

/-- Method `Balance::mutate` over the faithful decimal form: the same source
structure as `Balance.mutate`, with the library's addition and sign flag. -/
def DBalance.mutate (b : DBalance) (l : DLedger) : DBalance × Except BalanceError Dec :=
  let amount := l.amount
  let currentBalance := b.ledgers.sum
  if Dec.isSignNegative (Dec.add currentBalance amount) then
    (b, Except.error BalanceError.balanceNotEnough)
  else
    let b2 : DBalance := { b with ledgers := (b.ledgers.add l).1 }
    (b2, Except.ok b2.ledgers.sum)

/-- Method `Balance::amount` over the faithful decimal form. -/
def DBalance.amount (b : DBalance) : Dec :=
  if b.ledgers.len = 0 then Dec.zero else b.ledgers.sum

/-- Deposit entry for a factory-produced magnitude, in faithful decimal form.
-/
def dDepositEntry (id : String) (q : Dec) : DLedger :=
  { id := id, action := "Deposit", amount := q }

/-- Withdrawal entry for the same factory-produced magnitude: the sign flag is
set, as the conversion does on the negated double. -/
def dWithdrawalEntry (id : String) (q : Dec) : DLedger :=
  { id := id, action := "Withdrawal",
    amount := { neg := true, mant := q.mant, scale := q.scale } }

/-- Repeated deposit-then-withdrawal of one amount through the faithful
`DBalance.mutate`; `none` as soon as either mutation of a round is rejected.
-/
def dRoundTrips (q : Dec) : List (String × String) → DBalance → Option DBalance
  | [], b => some b
  | (i, j) :: rest, b =>
    match b.mutate (dDepositEntry i q) with
    | (b1, Except.ok _) =>
      match b1.mutate (dWithdrawalEntry j q) with
      | (b2, Except.ok _) => dRoundTrips q rest b2
      | (_, Except.error _) => none
    | (_, Except.error _) => none

/-- Total of the mantissas of a collection's amounts. -/
def mantTotal (coll : List DLedger) : ℕ :=
  (coll.map (fun l => l.amount.mant)).sum

/-- Total of the signed mantissas of a collection's amounts: the exact sum at
a common scale. -/
def svalTotal (coll : List DLedger) : ℤ :=
  (coll.map (fun l => l.amount.sval)).sum

/-! ## Helper lemmas -/

theorem sumAmounts_append (coll : List Ledger) (l : Ledger) :
    sumAmounts (coll ++ [l]) = sumAmounts coll + l.amount := by
  simp [sumAmounts, List.foldl_append]

theorem Balance.amount_eq_sum (b : Balance) : b.amount = b.ledgers.sum := by
  by_cases hl : b.ledgers.len = 0
  · have hc : b.ledgers.collection = [] := List.length_eq_zero.mp hl
    simp [Balance.amount, hl, Ledgers.sum, hc, sumAmounts]
  · simp [Balance.amount, hl]

theorem mutate_neg (b : Balance) (l : Ledger)
    (h : b.ledgers.sum + l.amount < 0) :
    b.mutate l = (b, Except.error BalanceError.balanceNotEnough) := by
  simp [Balance.mutate, Decimal.isSignNegative, h]

theorem mutate_nonneg_fresh (b : Balance) (l : Ledger)
    (hs : 0 ≤ b.ledgers.sum + l.amount) (hid : l.id ∉ b.ledgers.index) :
    b.mutate l =
      ({ currency := b.currency,
         ledgers := { index := l.id :: b.ledgers.index,
                      collection := b.ledgers.collection ++ [l] } },
       Except.ok (b.ledgers.sum + l.amount)) := by
  have hneg : ¬(b.ledgers.sum + l.amount < 0) := not_lt.mpr hs
  simp [Balance.mutate, Decimal.isSignNegative, hneg, Ledgers.add, hid,
    Ledgers.sum, sumAmounts_append]
  exact hs

theorem mutate_nonneg_dup (b : Balance) (l : Ledger)
    (hs : 0 ≤ b.ledgers.sum + l.amount) (hid : l.id ∈ b.ledgers.index) :
    b.mutate l = (b, Except.ok b.ledgers.sum) := by
  have hneg : ¬(b.ledgers.sum + l.amount < 0) := not_lt.mpr hs
  simp [Balance.mutate, Decimal.isSignNegative, hneg, Ledgers.add, hid]

theorem mutate_fst_sum_nonneg (b : Balance) (l : Ledger)
    (h : 0 ≤ b.ledgers.sum) : 0 ≤ ((b.mutate l).1).ledgers.sum := by
  by_cases hneg : b.ledgers.sum + l.amount < 0
  · rw [mutate_neg b l hneg]; exact h
  · push_neg at hneg
    by_cases hid : l.id ∈ b.ledgers.index
    · rw [mutate_nonneg_dup b l hneg hid]; exact h
    · rw [mutate_nonneg_fresh b l hneg hid]
      simpa [Ledgers.sum, sumAmounts_append] using hneg

theorem lookupBalance_replace (bs : List (String × Balance)) (k : String)
    (v : Balance) (h : (lookupBalance bs k).isSome = true) :
    lookupBalance (replaceBalance bs k v) k = some v := by
  induction bs with
  | nil => simp [lookupBalance] at h
  | cons p rest ih =>
    obtain ⟨k1, v1⟩ := p
    by_cases hk : k1 = k
    · subst hk; simp [lookupBalance, replaceBalance]
    · simp only [lookupBalance, replaceBalance, hk, if_false] at h ⊢
      exact ih h

/-! ## Claims -/

set_option maxRecDepth 8000
set_option exponentiation.threshold 2000

/-- Claim C1 (refuted — code bug): `Ledger::new` parses the raw amount through
binary `f64` (`a.parse::<f64>()` followed by `Decimal::from_f64`), so the two
distinct amounts `"0.1"` and `"0.10000000000000000001"` — both exactly
representable in the decimal type, the latter with 20 significant digits —
collapse to the very same stored decimal; in particular the 20-digit literal
is not stored at its exact decimal value. -/
theorem C1_f64_intermediate_loses_precision :
    newLedgerAmount "x" (Action.deposit "0.10000000000000000001")
      = newLedgerAmount "x" (Action.deposit "0.1")
    ∧ exactAmount "0.10000000000000000001" ≠ exactAmount "0.1"
    ∧ newLedgerAmount "x" (Action.deposit "0.10000000000000000001")
      ≠ exactAmount "0.10000000000000000001" := by decide

/-- Claim C2 (refuted — code bug): `Balance::mutate` discards the result of
`Ledgers::add` (`let _ = self.ledgers.add(ledger)`), so an entry whose id
already exists in the entry set does not make `mutate` fail with
`DuplicateLedger`: on a balance holding entry id "a", mutating with another
entry of id "a" returns `Ok` with the unchanged sum, and appends nothing. -/
theorem C2_duplicate_not_propagated :
    Balance.mutate
        { currency := "USD",
          ledgers := { index := ["a"],
                       collection := [{ id := "a", action := "Deposit", amount := 5 }] } }
        { id := "a", action := "Deposit", amount := 3 }
      = ({ currency := "USD",
           ledgers := { index := ["a"],
                        collection := [{ id := "a", action := "Deposit", amount := 5 }] } },
         Except.ok 5) := by decide

/-- Claim C3: whenever the current sum plus the entry's amount is negative,
`Balance::mutate` fails with `BalanceNotEnough` and the balance is completely
unchanged — the entry set holds the same entries in the same order and
`Balance::amount` returns exactly the same value as before. -/
theorem C3_overdraw_rejected_without_side_effect (b : Balance) (l : Ledger)
    (h : b.ledgers.sum + l.amount < 0) :
    b.mutate l = (b, Except.error BalanceError.balanceNotEnough)
    ∧ ((b.mutate l).1).ledgers.collection = b.ledgers.collection
    ∧ ((b.mutate l).1).amount = b.amount := by
  have e := mutate_neg b l h
  exact ⟨e, by rw [e], by rw [e]⟩

/-- Witness for C3 at a concrete input: withdrawing 100 from a fresh balance
is rejected and leaves the balance untouched. -/
theorem C3_overdraw_rejected_without_side_effect_witness :
    Balance.mutate { currency := "USD", ledgers := Ledgers.new }
        { id := "w1", action := "Withdrawal", amount := -100 }
      = ({ currency := "USD", ledgers := Ledgers.new },
         Except.error BalanceError.balanceNotEnough)
    ∧ ((Balance.mutate { currency := "USD", ledgers := Ledgers.new }
        { id := "w1", action := "Withdrawal", amount := -100 }).1).ledgers.collection
      = ({ currency := "USD", ledgers := Ledgers.new } : Balance).ledgers.collection
    ∧ ((Balance.mutate { currency := "USD", ledgers := Ledgers.new }
        { id := "w1", action := "Withdrawal", amount := -100 }).1).amount
      = Balance.amount { currency := "USD", ledgers := Ledgers.new } :=
  C3_overdraw_rejected_without_side_effect
    { currency := "USD", ledgers := Ledgers.new }
    { id := "w1", action := "Withdrawal", amount := -100 } (by decide)

/-- Claim C4: for every balance created by `Balance::new` and every sequence
of `Balance::mutate` calls, after each call — whether it succeeds or fails —
the running balance (the sum of all entry amounts in the entry set) is never
negative. -/
theorem C4_running_sum_never_negative (c : String) (b : Balance)
    (hb : Balance.new c = Except.ok b) (ls : List Ledger) :
    0 ≤ (applyMutations b ls).ledgers.sum := by
  have hb0 : b.ledgers.sum = 0 := by
    by_cases hc : c = ""
    · simp [Balance.new, hc] at hb
    · have hmk : Balance.mk (toUpperStr c) Ledgers.new = b := by
        simpa [Balance.new, hc] using hb
      rw [← hmk]; rfl
  have main : ∀ (xs : List Ledger) (bb : Balance), 0 ≤ bb.ledgers.sum →
      0 ≤ (applyMutations bb xs).ledgers.sum := by
    intro xs
    induction xs with
    | nil => intro bb h; simpa [applyMutations] using h
    | cons l rest ih =>
      intro bb h
      have hstep := ih ((bb.mutate l).1) (mutate_fst_sum_nonneg bb l h)
      simpa [applyMutations] using hstep
  exact main ls b (by rw [hb0])

/-- Witness for C4 at a concrete input: a freshly created USD balance after a
deposit of 5 and an overdrawing withdrawal still has a non-negative sum. -/
theorem C4_running_sum_never_negative_witness :
    0 ≤ (applyMutations { currency := "USD", ledgers := Ledgers.new }
          [{ id := "d1", action := "Deposit", amount := 5 },
           { id := "w1", action := "Withdrawal", amount := -9 }]).ledgers.sum :=
  C4_running_sum_never_negative "USD" { currency := "USD", ledgers := Ledgers.new }
    (by decide)
    [{ id := "d1", action := "Deposit", amount := 5 },
     { id := "w1", action := "Withdrawal", amount := -9 }]

/-- Claim C5 (refuted — code bug): `Ledger::new` can panic. The raw string
"inf" is accepted by Rust's f64 parser as an infinity, `Decimal::from_f64`
then returns no value, and the `unwrap` panics (`none` in this model); the
same happens for "NaN" and for a literal overflowing a binary double such as
"1e309". -/
theorem C5_ledger_new_panics_on_inf :
    Ledger.new "x" (Action.deposit "inf") = none
    ∧ Ledger.new "x" (Action.withdrawal "NaN") = none
    ∧ Ledger.new "x" (Action.deposit "1e309") = none := by decide

/-! ## Lemmas about the faithful decimal model -/

theorem signedMant_natAbs (n : Bool) (m : ℕ) : (signedMant n m).natAbs = m := by
  cases n <;> simp [signedMant]

theorem signedMant_zero (n : Bool) : signedMant n 0 = 0 := by
  cases n <;> simp [signedMant]

theorem Dec.sval_eq_signedMant (d : Dec) : d.sval = signedMant d.neg d.mant := rfl

theorem Dec.sval_natAbs (d : Dec) : d.sval.natAbs = d.mant := by
  cases h : d.neg <;> simp [Dec.sval, h]

theorem Dec.sval_zero_of_mant_zero (d : Dec) (h : d.mant = 0) : d.sval = 0 := by
  cases hn : d.neg <;> simp [Dec.sval, hn, h]

theorem Dec.sval_ofSigned (r : ℤ) (s : ℕ) : (Dec.ofSigned r s).sval = r := by
  by_cases h : r < 0
  · simp [Dec.ofSigned, Dec.sval, h, Int.ofNat_natAbs_of_nonpos (le_of_lt h)]
  · simp [Dec.ofSigned, Dec.sval, h, Int.natAbs_of_nonneg (not_lt.mp h)]

theorem Dec.toRat_eq_sval (d : Dec) :
    d.toRat = ((d.sval : ℚ)) / ((10 ^ d.scale : ℕ) : ℚ) := by
  cases h : d.neg <;> simp [Dec.toRat, Dec.sval, h]

theorem alignPair_same56 (ma mb s : ℕ) :
    alignPair 56 (ma, s) (mb, s) = ((ma, s), (mb, s)) := by
  show alignPair (55 + 1) (ma, s) (mb, s) = ((ma, s), (mb, s))
  simp [alignPair]

theorem alignPair_zero_up (fuel : ℕ) :
    ∀ t s mb : ℕ, t ≤ s → s - t ≤ fuel →
      alignPair fuel (0, t) (mb, s) = ((0, s), (mb, s)) := by
  induction fuel with
  | zero =>
    intro t s mb hts hfuel
    have hts2 : t = s := by omega
    subst hts2
    rfl
  | succ n ih =>
    intro t s mb hts hfuel
    by_cases h : t = s
    · subst h
      simp [alignPair]
    · have hlt : t < s := lt_of_le_of_ne hts h
      have hstep : alignPair (n + 1) (0, t) (mb, s)
          = alignPair n (0 * 10, t + 1) (mb, s) := by
        simp [alignPair, h, hlt]
      rw [hstep]
      simp only [Nat.zero_mul]
      exact ih (t + 1) s mb hlt (by omega)

theorem alignPair_zero_up56 (t s mb : ℕ) (hts : t ≤ s) (hf : s - t ≤ 56) :
    alignPair 56 (0, t) (mb, s) = ((0, s), (mb, s)) :=
  alignPair_zero_up 56 t s mb hts hf

theorem addAligned_eq (na nb : Bool) (ma mb s : ℕ)
    (h : (signedMant na ma + signedMant nb mb).natAbs ≤ maxMantissa) :
    addAligned na nb ((ma, s), (mb, s))
      = Dec.ofSigned (signedMant na ma + signedMant nb mb) s := by
  simp only [addAligned]
  rw [if_neg (not_lt.mpr h)]
  rfl

theorem Dec.add_same_scale (a b : Dec) (s : ℕ) (ha : a.scale = s) (hb : b.scale = s)
    (hbound : a.mant + b.mant ≤ maxMantissa) :
    Dec.add a b = Dec.ofSigned (a.sval + b.sval) s := by
  have habs : (signedMant a.neg a.mant + signedMant b.neg b.mant).natAbs
      ≤ maxMantissa := by
    calc (signedMant a.neg a.mant + signedMant b.neg b.mant).natAbs
        ≤ (signedMant a.neg a.mant).natAbs + (signedMant b.neg b.mant).natAbs :=
          Int.natAbs_add_le _ _
      _ = a.mant + b.mant := by rw [signedMant_natAbs, signedMant_natAbs]
      _ ≤ maxMantissa := hbound
  unfold Dec.add
  rw [ha, hb, alignPair_same56, addAligned_eq a.neg b.neg a.mant b.mant s habs]
  rfl

theorem Dec.add_zero_low (a b : Dec) (s : ℕ) (hm : a.mant = 0) (hts : a.scale ≤ s)
    (hsf : s - a.scale ≤ 56) (hb : b.scale = s) (hbound : b.mant ≤ maxMantissa) :
    Dec.add a b = Dec.ofSigned (a.sval + b.sval) s := by
  have hsa : a.sval = 0 := Dec.sval_zero_of_mant_zero a hm
  have habs : (signedMant a.neg 0 + signedMant b.neg b.mant).natAbs ≤ maxMantissa := by
    rw [signedMant_zero, zero_add, signedMant_natAbs]
    exact hbound
  unfold Dec.add
  rw [hm, hb, alignPair_zero_up56 a.scale s b.mant hts hsf,
    addAligned_eq a.neg b.neg 0 b.mant s habs, signedMant_zero, zero_add, hsa, zero_add]
  rfl

theorem mantTotal_cons (l : DLedger) (rest : List DLedger) :
    mantTotal (l :: rest) = l.amount.mant + mantTotal rest := by
  simp [mantTotal]

theorem svalTotal_cons (l : DLedger) (rest : List DLedger) :
    svalTotal (l :: rest) = l.amount.sval + svalTotal rest := by
  simp [svalTotal]

theorem mantTotal_append (xs : List DLedger) (l : DLedger) :
    mantTotal (xs ++ [l]) = mantTotal xs + l.amount.mant := by
  simp [mantTotal]

theorem svalTotal_append (xs : List DLedger) (l : DLedger) :
    svalTotal (xs ++ [l]) = svalTotal xs + l.amount.sval := by
  simp [svalTotal]

theorem dFold_spec (s : ℕ) (hs28 : s ≤ 28) (coll : List DLedger) :
    ∀ acc : Dec,
      (∀ l ∈ coll, l.amount.scale = s) →
      acc.neg = decide (acc.sval < 0) →
      (acc.scale = s ∨ (acc.mant = 0 ∧ acc.scale ≤ s)) →
      acc.mant + mantTotal coll ≤ maxMantissa →
      ((coll.foldl (fun t l => Dec.add t l.amount) acc).sval
          = acc.sval + svalTotal coll
        ∧ (coll.foldl (fun t l => Dec.add t l.amount) acc).mant
            ≤ acc.mant + mantTotal coll
        ∧ (coll.foldl (fun t l => Dec.add t l.amount) acc).neg
            = decide ((coll.foldl (fun t l => Dec.add t l.amount) acc).sval < 0)
        ∧ ((coll.foldl (fun t l => Dec.add t l.amount) acc).scale = s
            ∨ ((coll.foldl (fun t l => Dec.add t l.amount) acc).mant = 0
               ∧ (coll.foldl (fun t l => Dec.add t l.amount) acc).scale ≤ s))) := by
  induction coll with
  | nil =>
    intro acc _ hinv hcls _
    refine ⟨by simp [svalTotal], by simp [mantTotal], hinv, hcls⟩
  | cons l rest ih =>
    intro acc hsc hinv hcls hbound
    have hls : l.amount.scale = s := hsc l (by simp)
    have hrest : ∀ x ∈ rest, x.amount.scale = s := fun x hx => hsc x (by simp [hx])
    have hb' : acc.mant + (l.amount.mant + mantTotal rest) ≤ maxMantissa := by
      rw [← mantTotal_cons]
      exact hbound
    have hstep : Dec.add acc l.amount = Dec.ofSigned (acc.sval + l.amount.sval) s := by
      rcases hcls with hcs | ⟨hm0, hts⟩
      · exact Dec.add_same_scale acc l.amount s hcs hls (by omega)
      · by_cases heq : acc.scale = s
        · exact Dec.add_same_scale acc l.amount s heq hls (by omega)
        · exact Dec.add_zero_low acc l.amount s hm0 hts (by omega) hls (by omega)
    have hd1sval : (Dec.add acc l.amount).sval = acc.sval + l.amount.sval := by
      rw [hstep, Dec.sval_ofSigned]
    have hd1mant : (Dec.add acc l.amount).mant ≤ acc.mant + l.amount.mant := by
      rw [hstep]
      show (acc.sval + l.amount.sval).natAbs ≤ acc.mant + l.amount.mant
      calc (acc.sval + l.amount.sval).natAbs
          ≤ acc.sval.natAbs + l.amount.sval.natAbs := Int.natAbs_add_le _ _
        _ = acc.mant + l.amount.mant := by rw [Dec.sval_natAbs, Dec.sval_natAbs]
    have hd1neg : (Dec.add acc l.amount).neg
        = decide ((Dec.add acc l.amount).sval < 0) := by
      rw [hstep, Dec.sval_ofSigned]
      rfl
    have hd1cls : (Dec.add acc l.amount).scale = s
        ∨ ((Dec.add acc l.amount).mant = 0 ∧ (Dec.add acc l.amount).scale ≤ s) :=
      Or.inl (by rw [hstep]; rfl)
    have hbound2 : (Dec.add acc l.amount).mant + mantTotal rest ≤ maxMantissa := by
      omega
    have hmain := ih (Dec.add acc l.amount) hrest hd1neg hd1cls hbound2
    simp only [List.foldl_cons]
    refine ⟨?_, ?_, hmain.2.2.1, hmain.2.2.2⟩
    · rw [hmain.1, hd1sval, svalTotal_cons]
      ring
    · calc (rest.foldl (fun t x => Dec.add t x.amount) (Dec.add acc l.amount)).mant
          ≤ (Dec.add acc l.amount).mant + mantTotal rest := hmain.2.1
        _ ≤ (acc.mant + l.amount.mant) + mantTotal rest := by omega
        _ = acc.mant + mantTotal (l :: rest) := by rw [mantTotal_cons]; ring

theorem dSum_spec (s : ℕ) (hs28 : s ≤ 28) (coll : List DLedger)
    (hsc : ∀ l ∈ coll, l.amount.scale = s)
    (hbound : mantTotal coll ≤ maxMantissa) :
    (dSumAmounts coll).sval = svalTotal coll
    ∧ (dSumAmounts coll).mant ≤ mantTotal coll
    ∧ (dSumAmounts coll).neg = decide ((dSumAmounts coll).sval < 0)
    ∧ ((dSumAmounts coll).scale = s
        ∨ ((dSumAmounts coll).mant = 0 ∧ (dSumAmounts coll).scale ≤ s)) := by
  have h := dFold_spec s hs28 coll Dec.zero hsc (by rfl)
    (Or.inr ⟨rfl, Nat.zero_le s⟩) (by simpa [Dec.zero] using hbound)
  simpa [dSumAmounts, Dec.zero, Dec.sval] using h

theorem dSum_toRat (s : ℕ) (hs28 : s ≤ 28) (coll : List DLedger)
    (hsc : ∀ l ∈ coll, l.amount.scale = s)
    (hbound : mantTotal coll ≤ maxMantissa) :
    (dSumAmounts coll).toRat = ((svalTotal coll : ℚ)) / ((10 ^ s : ℕ) : ℚ) := by
  obtain ⟨h1, _, _, h4⟩ := dSum_spec s hs28 coll hsc hbound
  rcases h4 with h4 | ⟨hm0, _⟩
  · rw [Dec.toRat_eq_sval, h1, h4]
  · have hz : (dSumAmounts coll).sval = 0 := Dec.sval_zero_of_mant_zero _ hm0
    rw [Dec.toRat_eq_sval, ← h1, hz]
    simp

theorem dAmount_toRat (s : ℕ) (hs28 : s ≤ 28) (b : DBalance)
    (hsc : ∀ l ∈ b.ledgers.collection, l.amount.scale = s)
    (hbound : mantTotal b.ledgers.collection ≤ maxMantissa) :
    (DBalance.amount b).toRat
      = ((svalTotal b.ledgers.collection : ℚ)) / ((10 ^ s : ℕ) : ℚ) := by
  by_cases hlen : b.ledgers.len = 0
  · have hc : b.ledgers.collection = [] := List.length_eq_zero.mp hlen
    simp [DBalance.amount, hlen, hc, svalTotal, Dec.toRat, Dec.zero]
  · have hamt : DBalance.amount b = dSumAmounts b.ledgers.collection := by
      simp [DBalance.amount, hlen, DLedgers.sum]
    rw [hamt]
    exact dSum_toRat s hs28 _ hsc hbound

theorem dmutate_ok_fresh (b : DBalance) (l : DLedger)
    (hguard : (Dec.add b.ledgers.sum l.amount).neg = false)
    (hid : l.id ∉ b.ledgers.index) :
    b.mutate l =
      ({ currency := b.currency,
         ledgers := { index := l.id :: b.ledgers.index,
                      collection := b.ledgers.collection ++ [l] } },
       Except.ok (dSumAmounts (b.ledgers.collection ++ [l]))) := by
  have hguard2 : ((dSumAmounts b.ledgers.collection).add l.amount).neg = false := hguard
  simp [DBalance.mutate, Dec.isSignNegative, hguard2, DLedgers.add, hid, DLedgers.sum]

theorem dRoundTrips_cons (q : Dec) (i j : String)
    (rest : List (String × String)) (b : DBalance) :
    dRoundTrips q ((i, j) :: rest) b =
      match b.mutate (dDepositEntry i q) with
      | (b1, Except.ok _) =>
        (match b1.mutate (dWithdrawalEntry j q) with
         | (b2, Except.ok _) => dRoundTrips q rest b2
         | (_, Except.error _) => none)
      | (_, Except.error _) => none := rfl

/-- The rational-model conversion is the value of the faithful one. -/
theorem fromF64_eq_toRat (f : F64) : fromF64 f = (fromF64Dec f).map Dec.toRat := by
  cases f with
  | nan => rfl
  | inf => rfl
  | neginf => rfl
  | finite q =>
    by_cases h0 : q = 0
    · subst h0
      simp [fromF64, fromF64Dec, Dec.toRat, Dec.zero]
    · simp only [fromF64, fromF64Dec, if_neg h0]
      set p3 := stripZerosAux (reducePrecAux
        (reduceScaleAux (natLog2 (if q < 0 then -q else q).den)
          ((if q < 0 then -q else q).num.natAbs
            * 5 ^ natLog2 (if q < 0 then -q else q).den,
           natLog2 (if q < 0 then -q else q).den)).2
        (reduceScaleAux (natLog2 (if q < 0 then -q else q).den)
          ((if q < 0 then -q else q).num.natAbs
            * 5 ^ natLog2 (if q < 0 then -q else q).den,
           natLog2 (if q < 0 then -q else q).den))).2
        (reducePrecAux (reduceScaleAux (natLog2 (if q < 0 then -q else q).den)
          ((if q < 0 then -q else q).num.natAbs
            * 5 ^ natLog2 (if q < 0 then -q else q).den,
           natLog2 (if q < 0 then -q else q).den)).2
        (reduceScaleAux (natLog2 (if q < 0 then -q else q).den)
          ((if q < 0 then -q else q).num.natAbs
            * 5 ^ natLog2 (if q < 0 then -q else q).den,
           natLog2 (if q < 0 then -q else q).den))) with hp3
      by_cases hmax : maxMantissa < p3.1
      · simp [hmax]
      · simp only [hmax, if_false, Option.map_some]
        by_cases hq : q < 0 <;> simp [Dec.toRat, hq, neg_div]

/-- Dedicated round-trip specification over the faithful decimal model: when
every stored amount and the round-tripped magnitude carry the common scale `s`
and the total mantissa weight (counting every repetition) fits in 96 bits,
all the additions the sums perform are exact, every mutation succeeds, and
the collection's exact signed total is preserved. -/
theorem dRoundTrips_spec (q : Dec) (s : ℕ) (hs28 : s ≤ 28) (hqn : q.neg = false)
    (hqs : q.scale = s) (pairs : List (String × String)) :
    ∀ db : DBalance,
      (∀ l ∈ db.ledgers.collection, l.amount.scale = s) →
      0 ≤ svalTotal db.ledgers.collection →
      mantTotal db.ledgers.collection + 2 * pairs.length * q.mant ≤ maxMantissa →
      (pairIds pairs).Nodup →
      (∀ t ∈ pairIds pairs, t ∉ db.ledgers.index) →
      ∃ db2, dRoundTrips q pairs db = some db2
        ∧ (∀ l ∈ db2.ledgers.collection, l.amount.scale = s)
        ∧ svalTotal db2.ledgers.collection = svalTotal db.ledgers.collection
        ∧ mantTotal db2.ledgers.collection
            = mantTotal db.ledgers.collection + 2 * pairs.length * q.mant := by
  induction pairs with
  | nil =>
    intro db hsc hpos _ _ _
    exact ⟨db, rfl, hsc, rfl, by simp⟩
  | cons p rest ih =>
    obtain ⟨i, j⟩ := p
    intro db hsc hpos hbound hnd hfresh
    have hpid : pairIds ((i, j) :: rest) = i :: j :: pairIds rest := rfl
    rw [hpid] at hnd hfresh
    obtain ⟨hi_mem, hnd2⟩ := List.nodup_cons.mp hnd
    obtain ⟨hj_mem, hnd3⟩ := List.nodup_cons.mp hnd2
    have hij : i ≠ j := by
      intro h
      exact hi_mem (by simp [h])
    have hi_rest : i ∉ pairIds rest := fun h => hi_mem (List.mem_cons_of_mem _ h)
    have hfi : i ∉ db.ledgers.index := hfresh i (by simp)
    have hfj : j ∉ db.ledgers.index := hfresh j (by simp)
    have hq_sval : q.sval = (q.mant : ℤ) := by simp [Dec.sval, hqn]
    simp only [List.length_cons] at hbound
    have hsplit : 2 * (rest.length + 1) * q.mant
        = 2 * q.mant + 2 * rest.length * q.mant := by ring
    rw [hsplit] at hbound
    obtain ⟨X, hX⟩ : ∃ X, 2 * rest.length * q.mant = X := ⟨_, rfl⟩
    rw [hX] at hbound
    have hdep_amount : (dDepositEntry i q).amount = q := rfl
    have hdep_scale : (dDepositEntry i q).amount.scale = s := hqs
    have hdep_mant : (dDepositEntry i q).amount.mant = q.mant := rfl
    have hwd_scale : (dWithdrawalEntry j q).amount.scale = s := hqs
    have hwd_mant : (dWithdrawalEntry j q).amount.mant = q.mant := rfl
    have hwd_sval : (dWithdrawalEntry j q).amount.sval = -(q.mant : ℤ) := by
      simp [dWithdrawalEntry, Dec.sval]
    have hM : mantTotal db.ledgers.collection ≤ maxMantissa :=
      le_trans (Nat.le_add_right _ _) hbound
    obtain ⟨hsv, hsm, hnegf, hcls⟩ := dSum_spec s hs28 db.ledgers.collection hsc hM
    have hadd1 : Dec.add (dSumAmounts db.ledgers.collection) (dDepositEntry i q).amount
        = Dec.ofSigned (svalTotal db.ledgers.collection + (q.mant : ℤ)) s := by
      rcases hcls with hcs | ⟨hm0, hts⟩
      · rw [Dec.add_same_scale _ _ s hcs hdep_scale (by rw [hdep_mant]; omega),
          hsv, hdep_amount, hq_sval]
      · rw [Dec.add_zero_low _ _ s hm0 hts (by omega) hdep_scale (by rw [hdep_mant]; omega),
          hsv, hdep_amount, hq_sval]
    have hguard1 : (Dec.add (DLedgers.sum db.ledgers) (dDepositEntry i q).amount).neg
        = false := by
      rw [show DLedgers.sum db.ledgers = dSumAmounts db.ledgers.collection from rfl, hadd1]
      show decide (svalTotal db.ledgers.collection + (q.mant : ℤ) < 0) = false
      simp only [decide_eq_false_iff_not, not_lt]
      exact add_nonneg hpos (Int.natCast_nonneg q.mant)
    have e1 := dmutate_ok_fresh db (dDepositEntry i q) hguard1 hfi
    have hC1sc : ∀ l ∈ db.ledgers.collection ++ [dDepositEntry i q],
        l.amount.scale = s := by
      intro l hl
      rcases List.mem_append.mp hl with h | h
      · exact hsc l h
      · rw [List.mem_singleton] at h
        subst h
        exact hdep_scale
    have hC1sval : svalTotal (db.ledgers.collection ++ [dDepositEntry i q])
        = svalTotal db.ledgers.collection + (q.mant : ℤ) := by
      rw [svalTotal_append, hdep_amount, hq_sval]
    have hC1mant : mantTotal (db.ledgers.collection ++ [dDepositEntry i q])
        = mantTotal db.ledgers.collection + q.mant := by
      rw [mantTotal_append, hdep_mant]
    have hC1M : mantTotal (db.ledgers.collection ++ [dDepositEntry i q])
        ≤ maxMantissa := by
      rw [hC1mant]; omega
    obtain ⟨hsv2, hsm2, hnegf2, hcls2⟩ := dSum_spec s hs28 _ hC1sc hC1M
    have hadd2 : Dec.add (dSumAmounts (db.ledgers.collection ++ [dDepositEntry i q]))
          (dWithdrawalEntry j q).amount
        = Dec.ofSigned (svalTotal (db.ledgers.collection ++ [dDepositEntry i q])
            + -(q.mant : ℤ)) s := by
      rcases hcls2 with hcs | ⟨hm0, hts⟩
      · rw [Dec.add_same_scale _ _ s hcs hwd_scale (by rw [hwd_mant]; omega),
          hsv2, hwd_sval]
      · rw [Dec.add_zero_low _ _ s hm0 hts (by omega) hwd_scale (by rw [hwd_mant]; omega),
          hsv2, hwd_sval]
    have hval : svalTotal (db.ledgers.collection ++ [dDepositEntry i q]) + -(q.mant : ℤ)
        = svalTotal db.ledgers.collection := by
      rw [hC1sval]
      ring
    have hguard2 : (Dec.add (dSumAmounts (db.ledgers.collection ++ [dDepositEntry i q]))
        (dWithdrawalEntry j q).amount).neg = false := by
      rw [hadd2, hval]
      show decide (svalTotal db.ledgers.collection < 0) = false
      simp only [decide_eq_false_iff_not, not_lt]
      exact hpos
    have hj2 : (dWithdrawalEntry j q).id ∉
        ((dDepositEntry i q).id :: db.ledgers.index) := by
      intro hmem
      rcases List.mem_cons.mp hmem with h | h
      · exact hij h.symm
      · exact hfj h
    have e2 := dmutate_ok_fresh
      { currency := db.currency,
        ledgers := { index := (dDepositEntry i q).id :: db.ledgers.index,
                     collection := db.ledgers.collection ++ [dDepositEntry i q] } }
      (dWithdrawalEntry j q) hguard2 hj2
    have hC2sc : ∀ l ∈ (db.ledgers.collection ++ [dDepositEntry i q])
        ++ [dWithdrawalEntry j q], l.amount.scale = s := by
      intro l hl
      rcases List.mem_append.mp hl with h | h
      · exact hC1sc l h
      · rw [List.mem_singleton] at h
        subst h
        exact hwd_scale
    have hC2sval : svalTotal ((db.ledgers.collection ++ [dDepositEntry i q])
          ++ [dWithdrawalEntry j q])
        = svalTotal db.ledgers.collection := by
      rw [svalTotal_append, hwd_sval]
      exact hval
    have hC2mant : mantTotal ((db.ledgers.collection ++ [dDepositEntry i q])
          ++ [dWithdrawalEntry j q])
        = mantTotal db.ledgers.collection + 2 * q.mant := by
      rw [mantTotal_append, hC1mant, hwd_mant]
      ring
    have hfresh2 : ∀ t ∈ pairIds rest, t ∉
        ((dWithdrawalEntry j q).id :: ((dDepositEntry i q).id :: db.ledgers.index)) := by
      intro t htm hin
      rcases List.mem_cons.mp hin with h | h
      · have htj : t = j := h
        exact hj_mem (htj ▸ htm)
      · rcases List.mem_cons.mp h with h2 | h2
        · have hti : t = i := h2
          exact hi_rest (hti ▸ htm)
        · exact hfresh t (by simp [htm]) h2
    have hihbound : mantTotal ((db.ledgers.collection ++ [dDepositEntry i q])
          ++ [dWithdrawalEntry j q]) + 2 * rest.length * q.mant ≤ maxMantissa := by
      rw [hC2mant, hX]
      omega
    obtain ⟨db2, hrt, hsc2, hsvr, hmtr⟩ := ih
      { currency := db.currency,
        ledgers := { index := (dWithdrawalEntry j q).id ::
                        ((dDepositEntry i q).id :: db.ledgers.index),
                     collection := (db.ledgers.collection ++ [dDepositEntry i q])
                        ++ [dWithdrawalEntry j q] } }
      hC2sc (by rw [hC2sval]; exact hpos) hihbound hnd3 hfresh2
    refine ⟨db2, ?_, hsc2, ?_, ?_⟩
    · rw [dRoundTrips_cons, e1]
      dsimp only
      rw [e2]
      dsimp only
      exact hrt
    · rw [hsvr, hC2sval]
    · rw [hmtr, hC2mant]
      simp only [List.length_cons]
      ring

/-- Claim C6 counterexample: decimal addition is not exact across distant
scales, so the round trip fails on the program.  The factory accepts
"1e-28" (stored as mantissa 1 at scale 28) and "1e28" (stored at scale 0
with a 28-digit mantissa); on a balance holding the 1e-28 entry, the
Deposit("1e28") and the following Withdrawal("1e28") mutations both succeed,
yet the final amount is zero, not the pre-deposit 1e-28: representing
1e-28 + 1e28 exactly would need a 57-digit mantissa, so the summation rounds
the small entry away while aligning the scales. -/
theorem C6_sum_rounds_small_entry_away :
    DLedger.new "e0" (Action.deposit "1e-28")
      = some (Except.ok
          { id := "e0", action := "Deposit",
            amount := { neg := false, mant := 1, scale := 28 } })
    ∧ DLedger.new "d1" (Action.deposit "1e28")
      = some (Except.ok
          { id := "d1", action := "Deposit",
            amount := { neg := false, mant := 9999999999999999583119736832,
                        scale := 0 } })
    ∧ DLedger.new "w1" (Action.withdrawal "1e28")
      = some (Except.ok
          { id := "w1", action := "Withdrawal",
            amount := { neg := true, mant := 9999999999999999583119736832,
                        scale := 0 } })
    ∧ DBalance.mutate
        { currency := "USD",
          ledgers :=
            { index := ["e0"],
              collection :=
                [{ id := "e0", action := "Deposit",
                   amount := { neg := false, mant := 1, scale := 28 } }] } }
        { id := "d1", action := "Deposit",
          amount := { neg := false, mant := 9999999999999999583119736832,
                      scale := 0 } }
      = ({ currency := "USD",
           ledgers :=
             { index := ["d1", "e0"],
               collection :=
                 [{ id := "e0", action := "Deposit",
                    amount := { neg := false, mant := 1, scale := 28 } },
                  { id := "d1", action := "Deposit",
                    amount := { neg := false,
                                mant := 9999999999999999583119736832,
                                scale := 0 } }] } },
         Except.ok { neg := false, mant := 9999999999999999583119736832,
                     scale := 0 })
    ∧ DBalance.mutate
        { currency := "USD",
          ledgers :=
            { index := ["d1", "e0"],
              collection :=
                [{ id := "e0", action := "Deposit",
                   amount := { neg := false, mant := 1, scale := 28 } },
                 { id := "d1", action := "Deposit",
                   amount := { neg := false,
                               mant := 9999999999999999583119736832,
                               scale := 0 } }] } }
        { id := "w1", action := "Withdrawal",
          amount := { neg := true, mant := 9999999999999999583119736832,
                      scale := 0 } }
      = ({ currency := "USD",
           ledgers :=
             { index := ["w1", "d1", "e0"],
               collection :=
                 [{ id := "e0", action := "Deposit",
                    amount := { neg := false, mant := 1, scale := 28 } },
                  { id := "d1", action := "Deposit",
                    amount := { neg := false,
                                mant := 9999999999999999583119736832,
                                scale := 0 } },
                  { id := "w1", action := "Withdrawal",
                    amount := { neg := true,
                                mant := 9999999999999999583119736832,
                                scale := 0 } }] } },
         Except.ok { neg := false, mant := 0, scale := 0 })
    ∧ DBalance.amount
        { currency := "USD",
          ledgers :=
            { index := ["w1", "d1", "e0"],
              collection :=
                [{ id := "e0", action := "Deposit",
                   amount := { neg := false, mant := 1, scale := 28 } },
                 { id := "d1", action := "Deposit",
                   amount := { neg := false,
                               mant := 9999999999999999583119736832,
                               scale := 0 } },
                 { id := "w1", action := "Withdrawal",
                   amount := { neg := true,
                               mant := 9999999999999999583119736832,
                               scale := 0 } }] } }
      = { neg := false, mant := 0, scale := 0 }
    ∧ DBalance.amount
        { currency := "USD",
          ledgers :=
            { index := ["e0"],
              collection :=
                [{ id := "e0", action := "Deposit",
                   amount := { neg := false, mant := 1, scale := 28 } }] } }
      = { neg := false, mant := 1, scale := 28 }
    ∧ ¬Dec.toRat { neg := false, mant := 0, scale := 0 }
        = Dec.toRat { neg := false, mant := 1, scale := 28 } := by
  decide

/-- Claim C6 (amended): depositing an amount the factory accepted and then
withdrawing the same amount succeeds and returns the balance's amount to
exactly its pre-deposit value, for any number of repetitions, provided the
randomly generated id tokens are pairwise distinct and fresh (an id collision
would be silently skipped by the discarded `Ledgers::add`, see C2) and the
amounts are exactly summable in the decimal type — here: the balance's
entries and the amount carry one common decimal scale and the total mantissa
weight, counting every repetition, stays within the 96-bit mantissa.  Without
that capacity condition the claim fails: aligning scales across more than 96
bits rounds the smaller operand away (counterexample above).  Equality of
amounts is the library's decimal equality, i.e. equality of denoted values;
in particular each withdrawal against a balance holding exactly the deposited
amount succeeds rather than failing with `BalanceNotEnough`. -/
theorem C6_roundtrip_exact_within_capacity (q : Dec) (s : ℕ)
    (pairs : List (String × String)) (db : DBalance)
    (hs28 : s ≤ 28) (hqn : q.neg = false) (hqs : q.scale = s)
    (hsc : ∀ l ∈ db.ledgers.collection, l.amount.scale = s)
    (hpos : 0 ≤ svalTotal db.ledgers.collection)
    (hbound : mantTotal db.ledgers.collection + 2 * pairs.length * q.mant ≤ maxMantissa)
    (hnd : (pairIds pairs).Nodup)
    (hfresh : ∀ t ∈ pairIds pairs, t ∉ db.ledgers.index) :
    ∃ db2, dRoundTrips q pairs db = some db2
      ∧ (DBalance.amount db2).toRat = (DBalance.amount db).toRat := by
  obtain ⟨db2, h1, h2, h3, h4⟩ :=
    dRoundTrips_spec q s hs28 hqn hqs pairs db hsc hpos hbound hnd hfresh
  refine ⟨db2, h1, ?_⟩
  have hb2 : mantTotal db2.ledgers.collection ≤ maxMantissa := by
    rw [h4]
    exact hbound
  have hb0 : mantTotal db.ledgers.collection ≤ maxMantissa :=
    le_trans (Nat.le_add_right _ _) hbound
  rw [dAmount_toRat s hs28 db2 h2 hb2, dAmount_toRat s hs28 db hsc hb0, h3]

/-- Witness for the amended C6 at a concrete input: two deposit/withdrawal
rounds of 0.1 on a fresh USD balance succeed and restore the original
amount. -/
theorem C6_roundtrip_exact_within_capacity_witness :
    ∃ db2, dRoundTrips { neg := false, mant := 1, scale := 1 } [("a", "b"), ("c", "d")]
            { currency := "USD", ledgers := { index := [], collection := [] } }
          = some db2
      ∧ (DBalance.amount db2).toRat
          = (DBalance.amount
              { currency := "USD",
                ledgers := { index := [], collection := [] } }).toRat :=
  C6_roundtrip_exact_within_capacity { neg := false, mant := 1, scale := 1 } 1
    [("a", "b"), ("c", "d")]
    { currency := "USD", ledgers := { index := [], collection := [] } }
    (by decide) (by decide) (by decide) (by decide) (by decide) (by decide)
    (by decide) (by decide)

/-- Claim C7 counterexample: at the concrete zero input "0" the error the code
produces carries the message "amount can't zero", not the message
"amount can't be zero" stated by the claim. -/
theorem C7_zero_message_differs :
    Ledger.new "x" (Action.deposit "0")
      = some (Except.error (LedgerError.invalidAmount "amount can\x27t zero"))
    ∧ Ledger.new "x" (Action.deposit "0")
      ≠ some (Except.error (LedgerError.invalidAmount "amount can\x27t be zero")) := by
  decide

/-- Claim C7 (amended): `Ledger::new` validates in this order with these
errors — an empty raw string fails with `EmptyAmount`; otherwise a raw string
with a leading minus fails with `InvalidAmount "amount can't be negative"`
for both action kinds and before any parsing; otherwise text the f64 parser
rejects fails with `ParseAmount`; otherwise a zero parsed magnitude fails with
`InvalidAmount "amount can't zero"` (the code's message lacks the word
"be"). -/
theorem C7_validation_order (id : String) (a : Action) :
    (a.raw = "" → Ledger.new id a = some (Except.error LedgerError.emptyAmount))
    ∧ (a.raw ≠ "" → startsWithMinus a.raw = true →
        Ledger.new id a
          = some (Except.error (LedgerError.invalidAmount "amount can\x27t be negative")))
    ∧ (a.raw ≠ "" → startsWithMinus a.raw = false → parseF64 a.raw = none →
        Ledger.new id a = some (Except.error LedgerError.parseAmount))
    ∧ (∀ f : F64, a.raw ≠ "" → startsWithMinus a.raw = false →
        parseF64 a.raw = some f → f.isZero = true →
        Ledger.new id a
          = some (Except.error (LedgerError.invalidAmount "amount can\x27t zero"))) := by
  refine ⟨fun h => ?_, fun h1 h2 => ?_, fun h1 h2 h3 => ?_, fun f h1 h2 h3 h4 => ?_⟩
  · simp [Ledger.new, h]
  · simp [Ledger.new, h1, h2]
  · simp [Ledger.new, h1, h2, h3]
  · simp [Ledger.new, h1, h2, h3, h4]

/-- Witness for C7 at concrete inputs, one per validation branch. -/
theorem C7_validation_order_witness :
    Ledger.new "x" (Action.withdrawal "")
      = some (Except.error LedgerError.emptyAmount)
    ∧ Ledger.new "x" (Action.deposit "-abc")
      = some (Except.error (LedgerError.invalidAmount "amount can\x27t be negative"))
    ∧ Ledger.new "x" (Action.deposit "12x")
      = some (Except.error LedgerError.parseAmount)
    ∧ Ledger.new "x" (Action.withdrawal "0.00")
      = some (Except.error (LedgerError.invalidAmount "amount can\x27t zero")) :=
  ⟨(C7_validation_order "x" (Action.withdrawal "")).1 (by decide),
   (C7_validation_order "x" (Action.deposit "-abc")).2.1 (by decide) (by decide),
   (C7_validation_order "x" (Action.deposit "12x")).2.2.1
     (by decide) (by decide) (by decide),
   (C7_validation_order "x" (Action.withdrawal "0.00")).2.2.2 (F64.finite 0)
     (by decide) (by decide) (by decide) (by decide)⟩

/-- Claim C8 (refuted — code bug): the raw amount "1e-300" passes the zero
test (its f64 value is nonzero) but underflows the decimal type in
`Decimal::from_f64`, so `Ledger::new` successfully returns a Deposit entry
whose stored amount is zero — violating the invariant that a constructed
entry's amount is nonzero and strictly positive for deposits. -/
theorem C8_underflow_breaks_nonzero_invariant :
    Ledger.new "x" (Action.deposit "1e-300")
      = some (Except.ok { id := "x", action := "Deposit", amount := 0 }) := by
  decide

/-- Claim C9: on the account store, `insert` fails with `AccountAlreadyExists`
exactly when the key is present and otherwise stores the balance; `update`
fails with `AccountNotExists` exactly when the key is absent and otherwise
replaces the stored balance wholesale; `get` returns nothing exactly when the
key is absent; and a failed `insert` or `update` leaves the map unchanged. -/
theorem C9_account_store_contract (st : InMemory) (k : String) (v : Balance) :
    ((st.insert k v).2 = Except.error StorageError.accountAlreadyExists
        ↔ st.containsKey k = true)
    ∧ (st.containsKey k = false →
        (st.insert k v).2 = Except.ok () ∧ ((st.insert k v).1).get k = some v)
    ∧ ((st.update k v).2 = Except.error StorageError.accountNotExists
        ↔ st.containsKey k = false)
    ∧ (st.containsKey k = true →
        (st.update k v).2 = Except.ok () ∧ ((st.update k v).1).get k = some v)
    ∧ (st.get k = none ↔ st.containsKey k = false)
    ∧ ((st.insert k v).2 ≠ Except.ok () → (st.insert k v).1 = st)
    ∧ ((st.update k v).2 ≠ Except.ok () → (st.update k v).1 = st) := by
  by_cases hk : st.containsKey k
  · refine ⟨by simp [InMemory.insert, hk], by simp [hk], by simp [InMemory.update, hk],
      fun _ => ⟨by simp [InMemory.update, hk], ?_⟩, ?_, by simp [InMemory.insert, hk],
      by simp [InMemory.update, hk]⟩
    · simpa [InMemory.update, hk, InMemory.get]
        using lookupBalance_replace st.balances k v hk
    · cases hx : lookupBalance st.balances k with
      | none => simp [InMemory.containsKey, hx] at hk
      | some bb => simp [InMemory.get, InMemory.containsKey, hx]
  · have hk2 : st.containsKey k = false := by simpa using hk
    refine ⟨by simp [InMemory.insert, hk2], fun _ => ⟨by simp [InMemory.insert, hk2], ?_⟩,
      by simp [InMemory.update, hk2], by simp [hk2], ?_,
      by simp [InMemory.insert, hk2], by simp [InMemory.update, hk2]⟩
    · simp [InMemory.insert, hk2, InMemory.get, lookupBalance]
    · cases hx : lookupBalance st.balances k with
      | none => simp [InMemory.get, InMemory.containsKey, hx]
      | some bb => simp [InMemory.containsKey, hx] at hk2
  
/-- Witness for C9 at concrete inputs: on the empty store, `get` is absent and
`update` fails; after an `insert` the balance is stored. -/
theorem C9_account_store_contract_witness :
    (InMemory.new.insert "a" { currency := "USD", ledgers := Ledgers.new }).2
      = Except.ok ()
    ∧ ((InMemory.new.insert "a" { currency := "USD", ledgers := Ledgers.new }).1).get "a"
      = some { currency := "USD", ledgers := Ledgers.new }
    ∧ (InMemory.new.update "a" { currency := "USD", ledgers := Ledgers.new }).2
      = Except.error StorageError.accountNotExists
    ∧ InMemory.new.get "a" = none := by
  have h := C9_account_store_contract InMemory.new "a"
    { currency := "USD", ledgers := Ledgers.new }
  exact ⟨(h.2.1 (by decide)).1, (h.2.1 (by decide)).2,
    h.2.2.1.mpr (by decide), h.2.2.2.2.1.mpr (by decide)⟩

/-- Claim C10: whenever `Balance::mutate` returns `Ok t`, the value `t` is the
sum of the entry amounts actually stored in the entry set after the call —
the value `Balance::amount` returns at that point — because the returned
total is recomputed from the post-call history. -/
theorem C10_ok_total_recomputed (b : Balance) (l : Ledger) (t : Decimal)
    (h : (b.mutate l).2 = Except.ok t) :
    t = ((b.mutate l).1).ledgers.sum ∧ t = ((b.mutate l).1).amount := by
  by_cases hneg : b.ledgers.sum + l.amount < 0
  · rw [mutate_neg b l hneg] at h
    cases h
  · push_neg at hneg
    by_cases hid : l.id ∈ b.ledgers.index
    · rw [mutate_nonneg_dup b l hneg hid] at h ⊢
      have ht : b.ledgers.sum = t := by
        cases h
        rfl
      rw [← ht]
      exact ⟨rfl, (Balance.amount_eq_sum b).symm⟩
    · rw [mutate_nonneg_fresh b l hneg hid] at h ⊢
      have ht : b.ledgers.sum + l.amount = t := by
        cases h
        rfl
      rw [← ht]
      constructor
      · show _ = sumAmounts (b.ledgers.collection ++ [l])
        rw [sumAmounts_append]
        rfl
      · rw [Balance.amount_eq_sum]
        show _ = sumAmounts (b.ledgers.collection ++ [l])
        rw [sumAmounts_append]
        rfl

/-- Witness for C10 at a concrete input: a deposit of 5 on a fresh balance
returns total 5, which is the post-call sum and amount. -/
theorem C10_ok_total_recomputed_witness :
    (5 : Decimal) =
      ((Balance.mutate { currency := "USD", ledgers := Ledgers.new }
          { id := "d1", action := "Deposit", amount := 5 }).1).ledgers.sum
    ∧ (5 : Decimal) =
      ((Balance.mutate { currency := "USD", ledgers := Ledgers.new }
          { id := "d1", action := "Deposit", amount := 5 }).1).amount :=
  C10_ok_total_recomputed { currency := "USD", ledgers := Ledgers.new }
    { id := "d1", action := "Deposit", amount := 5 } 5 (by decide)

end SimpleBank
